import Mathlib

/-!
Verification development for the NodeDB embedded document store.

The definitions below are a shallow embedding of the storage engine:
`database/Collection.js` (document CRUD, query matching, update operators),
`database/Index.js` (composite-key indexes), `database/Database.js`
(aggregation pipeline) and `database/CoreDB.js` (snapshot save/load and the
serialized write queue).  JavaScript values are modelled by the `Value`
inductive (numbers as rationals; host `NaN`/`Infinity` do not occur in any
claim input), JS objects/Maps by insertion-ordered association lists, and
thrown exceptions by `Except`/an error component threaded through results.
Host-specific coercions that no claim exercises (string concatenation by `+`,
property access on non-objects, regular expressions) are noted inline where
the corresponding source branch is left unmodelled.
-/

/-- The JSON-like value type of documents and queries (`typeof`-style tagged
union).  Numbers are modelled as rationals: every numeric literal appearing in
the claims is exactly representable both as a double and as a rational. -/
inductive Value where
  | null
  | bool (b : Bool)
  | num (q : Rat)
  | str (s : String)
  | arr (elems : List Value)
  | obj (fields : List (String × Value))

/-- A document / JS object: an insertion-ordered association list from field
name to value.  `Option Value` with `none` models JS `undefined` (absent). -/
abbrev Doc := List (String × Value)

/-- Does a key start with the operator marker `$`?  (Character-level
implementation of `key.startsWith('$')`.) -/
def startsWithDollar (s : String) : Bool :=
  match s.data with
  | [] => false
  | c :: _ => c == '$'

/-- Split a list of characters at `.` (helper for `path.split('.')`). -/
def splitCharsOnDot : List Char → List (List Char)
  | [] => [[]]
  | c :: rest =>
      let r := splitCharsOnDot rest
      if c == '.' then [] :: r
      else
        match r with
        | g :: gs => (c :: g) :: gs
        | [] => [[c]]

/-- `path.split('.')` of the source (character-level implementation). -/
def splitOnDot (s : String) : List String :=
  (splitCharsOnDot s.data).map (fun cs => String.mk cs)

/-- `s.length === 0` style emptiness test on the character list. -/
def strIsEmpty (s : String) : Bool :=
  s.data.isEmpty

/-- JS property read `o[k]`: the first binding of `k`, `undefined` if absent. -/
def jsGet (doc : Doc) (k : String) : Option Value :=
  (doc.find? (fun p => p.1 == k)).map (fun p => p.2)

/-- JS property write `o[k] = v`: replace the binding in place, else append
(insertion order is preserved, as for JS objects). -/
def setField (doc : Doc) (k : String) (v : Value) : Doc :=
  match doc with
  | [] => [(k, v)]
  | (k', v') :: rest => if k' == k then (k, v) :: rest else (k', v') :: setField rest k v

/-- JS `delete o[k]`. -/
def removeField (doc : Doc) (k : String) : Doc :=
  doc.filter (fun p => !(p.1 == k))

/-- Rational addition, written out via `Rat.divInt` (mathematically the same
operation as `Rat.add`, in a form the kernel evaluates on closed inputs). -/
def ratAdd (a b : Rat) : Rat :=
  Rat.divInt (a.num * b.den + b.num * a.den) (a.den * b.den)

/-- Rational division, written out via `Rat.divInt` (mathematically the same
operation as `Rat.div`; division by zero yields 0 and is unexercised — the
accumulator divisor is a positive count). -/
def ratDiv (a b : Rat) : Rat :=
  Rat.divInt (a.num * b.den) (a.den * b.num)

/-- JS truthiness of a value. -/
def isTruthyV : Value → Bool
  | Value.null => false
  | Value.bool b => b
  | Value.num q => !(q == 0)
  | Value.str s => !strIsEmpty s
  | Value.arr _ => true
  | Value.obj _ => true

/-- JS falsiness of a possibly-undefined value (`!x`). -/
def isFalsyOpt : Option Value → Bool
  | none => true
  | some v => !isTruthyV v

/-- JS strict equality `===` on values.  Arrays and objects compare by
reference in the host; two separately constructed ones are never equal, which
is what the query/document comparisons in the engine observe, so they are
modelled as unequal here. -/
def jsStrictEq : Value → Value → Bool
  | Value.null, Value.null => true
  | Value.bool a, Value.bool b => a == b
  | Value.num a, Value.num b => a == b
  | Value.str a, Value.str b => a == b
  | _, _ => false

/-- `===` where the left side may be `undefined` (a document field). -/
def jsStrictEqOpt : Option Value → Value → Bool
  | some dv, v => jsStrictEq dv v
  | none, _ => false

/-- SameValueZero equality on possibly-undefined values, as used for `Map`
and `Set` keys (`undefined` equals `undefined`; no `NaN` in the model). -/
def optValueEq : Option Value → Option Value → Bool
  | none, none => true
  | some a, some b => jsStrictEq a b
  | _, _ => false

/-- Fields of an object value (`Object.entries`); non-objects contribute no
entries here (host index properties of strings/arrays are not modelled — no
claim reads entries of a non-object). -/
def objFields : Value → List (String × Value)
  | Value.obj fs => fs
  | _ => []

/-- Number formatting used by `JSON.stringify`.  Integer rationals print as
the integer; no claim serializes a non-integer number, so the general decimal
formatting of the host is not modelled. -/
def ratToJson (q : Rat) : String :=
  if q.den == 1 then toString q.num else toString q.num ++ "/" ++ toString q.den

mutual
/-- `JSON.stringify` on the value model (string escaping beyond plain
characters is not modelled; claim inputs use plain strings). -/
def jsonStringify : Value → String
  | Value.null => "null"
  | Value.bool true => "true"
  | Value.bool false => "false"
  | Value.num q => ratToJson q
  | Value.str s => "\"" ++ s ++ "\""
  | Value.arr elems => "[" ++ jsonStringifyArr elems ++ "]"
  | Value.obj fields => "\x7b" ++ jsonStringifyObj fields ++ "\x7d"

/-- Comma-joined serialization of array elements. -/
def jsonStringifyArr : List Value → String
  | [] => ""
  | [v] => jsonStringify v
  | v :: rest => jsonStringify v ++ "," ++ jsonStringifyArr rest

/-- Comma-joined serialization of object fields. -/
def jsonStringifyObj : List (String × Value) → String
  | [] => ""
  | [(k, v)] => "\"" ++ k ++ "\":" ++ jsonStringify v
  | (k, v) :: rest => "\"" ++ k ++ "\":" ++ jsonStringify v ++ "," ++ jsonStringifyObj rest
end

mutual
/-- Structural size of a value, used as recursion fuel for query matching. -/
def valueSize : Value → Nat
  | Value.null => 1
  | Value.bool _ => 1
  | Value.num _ => 1
  | Value.str _ => 1
  | Value.arr elems => 1 + valueListSize elems
  | Value.obj fields => 1 + fieldListSize fields

/-- Structural size of a list of values. -/
def valueListSize : List Value → Nat
  | [] => 1
  | v :: rest => 1 + valueSize v + valueListSize rest

/-- Structural size of an object's field list. -/
def fieldListSize : List (String × Value) → Nat
  | [] => 1
  | (_, v) :: rest => 1 + valueSize v + fieldListSize rest
end

/-- Property lookup on an arbitrary value (only objects carry modelled
properties; host index properties of strings/arrays are unexercised). -/
def objLookup : Value → String → Option Value
  | Value.obj fs, k => jsGet fs k
  | _, _ => none

/-- `getNestedValue(obj, path)` of `Database.js`/`Index.js`: split the path on
`.` and reduce with `current && current[key] !== undefined ? current[key] :
undefined`, starting from the (truthy) document object. -/
def getNestedValue (doc : Doc) (path : String) : Option Value :=
  match splitOnDot path with
  | [] => none
  | k :: rest =>
      rest.foldl
        (fun cur key =>
          match cur with
          | some c => if isTruthyV c then objLookup c key else none
          | none => none)
        (jsGet doc k)

/-- Host relational `<` restricted to the type pairs the claims exercise:
number/number and string/string.  All other pairs (mixed types, `undefined`)
yield `false`, matching the `NaN`-driven behavior for `undefined` operands;
numeric coercion of mixed operands is not modelled. -/
def jsLtV : Value → Value → Bool
  | Value.num a, Value.num b => decide (a < b)
  | Value.str a, Value.str b => decide (a < b)
  | _, _ => false

/-- Host relational `<=` (same modelling note as `jsLtV`). -/
def jsLeV : Value → Value → Bool
  | Value.num a, Value.num b => decide (a ≤ b)
  | Value.str a, Value.str b => decide (a ≤ b)
  | _, _ => false

/-- `docValue < value` with a possibly-undefined left operand. -/
def jsLt : Option Value → Value → Bool
  | some dv, v => jsLtV dv v
  | none, _ => false

/-- `docValue <= value` with a possibly-undefined left operand. -/
def jsLe : Option Value → Value → Bool
  | some dv, v => jsLeV dv v
  | none, _ => false

/-- `docValue > value` with a possibly-undefined left operand. -/
def jsGt : Option Value → Value → Bool
  | some dv, v => jsLtV v dv
  | none, _ => false

/-- `docValue >= value` with a possibly-undefined left operand. -/
def jsGe : Option Value → Value → Bool
  | some dv, v => jsLeV v dv
  | none, _ => false

/-- One comparison operator of `Collection.handleComparisonOperators`.  The
source writes e.g. `case '$gt': if (docValue <= value) return false`, so each
operator is the negation of the complementary host comparison; unrecognized
keys fall through (match anything).  `$regex` matching is not modelled (no
claim uses it); `$in`/`$nin` on a non-array argument raise in the host and
are unexercised. -/
def compareOp (docValue : Option Value) (op : String) (v : Value) : Bool :=
  match op with
  | "$eq" => jsStrictEqOpt docValue v
  | "$ne" => !jsStrictEqOpt docValue v
  | "$gt" => !jsLe docValue v
  | "$gte" => !jsLt docValue v
  | "$lt" => !jsGe docValue v
  | "$lte" => !jsGt docValue v
  | "$in" =>
      match v with
      | Value.arr xs => xs.any (fun x => jsStrictEqOpt docValue x)
      | _ => false
  | "$nin" =>
      match v with
      | Value.arr xs => !xs.any (fun x => jsStrictEqOpt docValue x)
      | _ => true
  | _ => true

/-- `Collection.handleComparisonOperators`: every listed operator must hold. -/
def handleComparisonOperators (docValue : Option Value) (fs : List (String × Value)) : Bool :=
  fs.all (fun p => compareOp docValue p.1 p.2)

/-- `Collection.compareValues`: `null` queries demand exactly `null`
(`undefined` does not match, per `===`); object queries enter operator mode
(including objects with no `$` keys, which then vacuously match); array
queries act as membership; otherwise strict equality.  `RegExp` query values
are not modelled (no claim uses them). -/
def compareValues (docValue : Option Value) (queryValue : Value) : Bool :=
  match queryValue with
  | Value.null => optValueEq docValue (some Value.null)
  | Value.obj fs => handleComparisonOperators docValue fs
  | Value.arr xs => xs.any (fun x => jsStrictEqOpt docValue x)
  | v => jsStrictEqOpt docValue v

/-- `Collection.matchesQuery` with `handleQueryOperators` inlined, fuelled to
express the recursion through `$and`/`$or`/`$nor` sub-conditions.  The fuel
passed by `matchesQuery` exceeds the nesting depth of any query, so the
zero-fuel arm is never reached on an actual query.  Per the source, field
keys are matched against top-level document properties (`document[key]`, not
dotted paths), `$`-keys are skipped in the field pass, and a present (truthy)
`$and` short-circuits `$or`/`$nor`.  A non-array truthy combinator argument
raises in the host and is unexercised. -/
def matchesQueryFuel : Nat → Doc → Doc → Bool
  | 0, _, _ => true
  | n + 1, doc, query =>
      let condOk : Value → Bool := fun c =>
        match c with
        | Value.obj fs => matchesQueryFuel n doc fs
        | _ => true
      let fieldOk :=
        query.all (fun p => startsWithDollar p.1 || compareValues (jsGet doc p.1) p.2)
      let opsOk :=
        match jsGet query "$and" with
        | some (Value.arr conds) => conds.all condOk
        | _ =>
            match jsGet query "$or" with
            | some (Value.arr conds) => conds.any condOk
            | _ =>
                match jsGet query "$nor" with
                | some (Value.arr conds) => !conds.any condOk
                | _ => true
      fieldOk && opsOk

/-- `Collection.matchesQuery`.  The fuel `fieldListSize query` strictly
exceeds the `$and`/`$or`/`$nor` nesting depth of `query`, so matching never
hits the zero-fuel arm. -/
def matchesQuery (doc : Doc) (query : Doc) : Bool :=
  matchesQueryFuel (fieldListSize query) doc query

/-- `Collection.applyQuery`: filter the documents by the query predicate. -/
def applyQuery (documents : List Doc) (query : Doc) : List Doc :=
  documents.filter (fun d => matchesQuery d query)

/-- `(document[key] || 0) + values[key]` of the `$inc` arm.  Only the
numeric/absent cases the engine is used with are modelled; host coercion of a
truthy non-numeric current value (string concatenation) is not modelled and
is unexercised by the claims. -/
def jsIncResult (cur : Option Value) (inc : Value) : Value :=
  match cur, inc with
  | some (Value.num n), Value.num i => Value.num (ratAdd n i)
  | _, Value.num i => Value.num i
  | _, v => v

/-- The `$push` arm: if the current field is not an array it is first reset
to `[]`, then the value is appended. -/
def jsPushResult (cur : Option Value) (v : Value) : Value :=
  match cur with
  | some (Value.arr xs) => Value.arr (xs ++ [v])
  | _ => Value.arr [v]

/-- One entry of the update spec, as processed by
`Collection.applyUpdateOperations`: `$`-keys dispatch to the operator switch
(`$set` merges via `Object.assign`, `$unset` deletes keys, `$inc` adds
treating absent as 0, `$push` appends; unknown `$`-operators do nothing), a
bare `_id` key is skipped, and any other bare key is a direct field
replacement. -/
def applyUpdateEntry (document : Doc) (operator : String) (values : Value) : Doc :=
  if startsWithDollar operator then
    if operator == "$set" then
      (objFields values).foldl (fun d p => setField d p.1 p.2) document
    else if operator == "$unset" then
      (objFields values).foldl (fun d p => removeField d p.1) document
    else if operator == "$inc" then
      (objFields values).foldl (fun d p => setField d p.1 (jsIncResult (jsGet d p.1) p.2)) document
    else if operator == "$push" then
      (objFields values).foldl (fun d p => setField d p.1 (jsPushResult (jsGet d p.1) p.2)) document
    else document
  else if operator == "_id" then
    document
  else
    setField document operator values

/-- `Collection.applyUpdateOperations`: the update spec's entries are applied
in the order written. -/
def applyUpdateOperations (document : Doc) (updateSpec : Doc) : Doc :=
  updateSpec.foldl (fun d p => applyUpdateEntry d p.1 p.2) document

/-- The id stored in an index entry: `document._id` (possibly `undefined`). -/
def docId (document : Doc) : Option Value :=
  jsGet document "_id"

/-- Insertion-ordered id set of one index key (`Set` of document ids, with
SameValueZero membership). -/
abbrev IdSet := List (Option Value)

/-- `Set.add`. -/
def idSetAdd (s : IdSet) (id : Option Value) : IdSet :=
  if s.any (fun x => optValueEq x id) then s else s ++ [id]

/-- `Set.delete`. -/
def idSetDelete (s : IdSet) (id : Option Value) : IdSet :=
  s.filter (fun x => !optValueEq x id)

/-- The `indexData` map: composite key string to id set, insertion ordered. -/
abbrev IndexData := List (String × IdSet)

/-- `indexData.get(key)` (also serves as `has`). -/
def indexDataFind (m : IndexData) (k : String) : Option IdSet :=
  (m.find? (fun p => p.1 == k)).map (fun p => p.2)

/-- `indexData.get(key).add(id)` preceded by `set(key, new Set())` when the
key is absent. -/
def indexDataAdd (m : IndexData) (k : String) (id : Option Value) : IndexData :=
  if (m.find? (fun p => p.1 == k)).isSome then
    m.map (fun p => if p.1 == k then (p.1, idSetAdd p.2 id) else p)
  else
    m ++ [(k, idSetAdd [] id)]

/-- Remove `id` from the set at `k`, deleting the entry when the set becomes
empty (the delete/update arms of `Index.update`). -/
def indexDataRemove (m : IndexData) (k : String) (id : Option Value) : IndexData :=
  m.filterMap (fun p =>
    if p.1 == k then
      let s' := idSetDelete p.2 id
      if s'.isEmpty then none else some (p.1, s')
    else some p)

/-- `database/Index.js` state: name, owning collection, indexed field paths,
`unique`/`sparse` options (already defaulted to booleans by the constructor)
and the key-to-id-set map. -/
structure Index where
  name : String
  collection : String
  fields : List String
  unique : Bool
  sparse : Bool
  indexData : IndexData

/-- `Index.getIndexKey`: serialize each field path's value (`null` marker for
`undefined`), short-circuit to no key when sparse and a part is missing, else
join the parts with `|` (the host `Array.join` renders `null` parts as empty
strings). -/
def Index.getIndexKey (idx : Index) (document : Doc) : Option String :=
  let keyParts : List (Option String) :=
    idx.fields.map (fun field =>
      match getNestedValue document field with
      | some v => some (jsonStringify v)
      | none => none)
  if idx.sparse && keyParts.any (fun p => p.isNone) then none
  else some ("|".intercalate (keyParts.map (fun p => p.getD "")))

/-- The three operations of `Index.update`. -/
inductive IndexOp where
  | insert
  | update
  | delete

/-- `Index.update(document, operation, originalDoc)`.  A raised
`DuplicateKey` error is the `Except.error` case; the returned index is the
state after the mutations performed before the raise (for `insert` the
duplicate check precedes any mutation; for `update` the removal from the old
key has already happened when the new key's unique check raises). -/
def Index.update (idx : Index) (document : Doc) (operation : IndexOp) (originalDoc : Option Doc) :
    Except String Index :=
  let key := idx.getIndexKey document
  let originalKey := match originalDoc with
    | some od => idx.getIndexKey od
    | none => none
  match operation with
  | IndexOp.insert =>
      match key with
      | none => Except.ok idx
      | some k =>
          if idx.unique && (indexDataFind idx.indexData k).isSome then
            Except.error ("Duplicate key error for index: " ++ idx.name)
          else
            Except.ok { idx with indexData := indexDataAdd idx.indexData k (docId document) }
  | IndexOp.update =>
      if originalKey == key then Except.ok idx
      else
        let idx1 :=
          match originalKey with
          | some ok' =>
              if (indexDataFind idx.indexData ok').isSome then
                { idx with indexData := indexDataRemove idx.indexData ok' (docId document) }
              else idx
          | none => idx
        match key with
        | none => Except.ok idx1
        | some k =>
            if idx1.unique && (indexDataFind idx1.indexData k).isSome then
              Except.error ("Duplicate key error for index: " ++ idx1.name)
            else
              Except.ok { idx1 with indexData := indexDataAdd idx1.indexData k (docId document) }
  | IndexOp.delete =>
      match key with
      | none => Except.ok idx
      | some k =>
          if (indexDataFind idx.indexData k).isSome then
            Except.ok { idx with indexData := indexDataRemove idx.indexData k (docId document) }
          else Except.ok idx

/-- The collection's document `Map`, keyed by `document._id` (insertion
ordered; the key is whatever value `_id` holds, compared with
SameValueZero). -/
abbrev DocMap := List (Option Value × Doc)

/-- `Map.get`. -/
def docMapGet (m : DocMap) (k : Option Value) : Option Doc :=
  (m.find? (fun p => optValueEq p.1 k)).map (fun p => p.2)

/-- `Map.set`: replace in place (keeping the original position and key
object), else append. -/
def docMapSet (m : DocMap) (k : Option Value) (d : Doc) : DocMap :=
  match m with
  | [] => [(k, d)]
  | (k', d') :: rest =>
      if optValueEq k' k then (k', d) :: rest else (k', d') :: docMapSet rest k d

/-- `Map.values()` in insertion order. -/
def docMapValues (m : DocMap) : List Doc :=
  m.map (fun p => p.2)

/-- `database/Collection.js` state: the document map plus the indexes of the
store that are bound to this collection (`Collection.updateIndexes` filters
`db.indexes` on `index.collection === this.name`; the bound sub-list is
carried directly here). -/
structure Collection where
  documents : DocMap
  indexes : List Index

/-- `Collection.updateIndexes`: apply `Index.update` to each bound index in
iteration order.  A raised `DuplicateKey` stops the iteration; the indexes
already processed keep their new state, the failing index and the remaining
ones are untouched, and the error is reported alongside the resulting list. -/
def updateIndexesList (idxs : List Index) (document : Doc) (op : IndexOp) (orig : Option Doc) :
    List Index × Option String :=
  match idxs with
  | [] => ([], none)
  | idx :: rest =>
      match idx.update document op orig with
      | Except.ok idx' =>
          let (rest', err) := updateIndexesList rest document op orig
          (idx' :: rest', err)
      | Except.error e => (idx :: rest, some e)

/-- `Collection.insert(document)`: assign `_id` when falsy, stamp
`_createdAt`/`_updatedAt`, put the document into the map, then update the
indexes.  A `DuplicateKey` raised by an index propagates, but the document
has already been placed in the map and earlier index updates stay applied
(the write-queue/event steps are I/O and are modelled separately).  `newId`
stands for the generated `uuidv4()` and `now` for `new Date().toISOString()`. -/
def Collection.insert (c : Collection) (document : Doc) (newId now : String) :
    Collection × Except String Doc :=
  let doc1 :=
    if isFalsyOpt (jsGet document "_id") then setField document "_id" (Value.str newId)
    else document
  let doc2 := setField (setField doc1 "_createdAt" (Value.str now)) "_updatedAt" (Value.str now)
  let docs' := docMapSet c.documents (jsGet doc2 "_id") doc2
  match updateIndexesList c.indexes doc2 IndexOp.insert none with
  | (idxs', none) => (⟨docs', idxs'⟩, Except.ok doc2)
  | (idxs', some e) => (⟨docs', idxs'⟩, Except.error e)

/-- `Collection.find(query)` with default options (none of the claims pass
`sort`/`skip`/`limit`, so option handling is not modelled): all live
documents, filtered by the query unless it is empty. -/
def Collection.find (c : Collection) (query : Doc) : List Doc :=
  let results := docMapValues c.documents
  if query.length > 0 then applyQuery results query else results

/-- The result object of `Collection.update` (`upsertedCount` is only
present on the upsert return path). -/
structure UpdateResult where
  matchedCount : Nat
  modifiedCount : Nat
  upsertedCount : Option Nat
deriving DecidableEq

/-- The options object of `Collection.update`. -/
structure UpdateOptions where
  upsert : Bool

/-- The body of `Collection.update`'s `for (const doc of documents)` loop.
Faithfully to the source, the upsert branch sits inside this loop and is
guarded by `documents.length === 0` (`total` is the length of the array
being iterated, so the branch is unreachable); it inserts `{...query,
...update}` and returns early.  Otherwise the update operators are applied,
`_updatedAt` refreshed, the document re-stored under its (possibly updated)
`_id`, and the indexes maintained — an index `DuplicateKey` propagates,
aborting the remaining iterations.  Returns the final documents/indexes
state and count, plus an early return value or raised error when one
occurred. -/
def updateLoop (docs : DocMap) (idxs : List Index) (pending : List Doc) (total : Nat)
    (query updateSpec : Doc) (upsert : Bool) (newId now : String) (count : Nat) :
    (DocMap × List Index × Nat) × Option (Except String UpdateResult) :=
  match pending with
  | [] => ((docs, idxs, count), none)
  | doc :: rest =>
      if upsert && total == 0 then
        let merged := updateSpec.foldl (fun d p => setField d p.1 p.2) query
        let (c', r) := Collection.insert ⟨docs, idxs⟩ merged newId now
        match r with
        | Except.ok _ => ((c'.documents, c'.indexes, count), some (Except.ok ⟨0, 1, some 1⟩))
        | Except.error e => ((c'.documents, c'.indexes, count), some (Except.error e))
      else
        let originalDoc := doc
        let doc1 := applyUpdateOperations doc updateSpec
        let doc2 := setField doc1 "_updatedAt" (Value.str now)
        let docs' := docMapSet docs (jsGet doc2 "_id") doc2
        match updateIndexesList idxs doc2 IndexOp.update (some originalDoc) with
        | (idxs', none) => updateLoop docs' idxs' rest total query updateSpec upsert newId now (count + 1)
        | (idxs', some e) => ((docs', idxs', count), some (Except.error e))

/-- `Collection.update(query, update, options)`: find the matches, run the
loop, and report `{matchedCount: documents.length, modifiedCount:
updatedCount}` (no `upsertedCount` on this path). -/
def Collection.update (c : Collection) (query updateSpec : Doc) (options : UpdateOptions)
    (newId now : String) : Collection × Except String UpdateResult :=
  let found := c.find query
  match updateLoop c.documents c.indexes found found.length query updateSpec
      options.upsert newId now 0 with
  | ((docs', idxs', _), some r) => (⟨docs', idxs'⟩, r)
  | ((docs', idxs', count), none) => (⟨docs', idxs'⟩, Except.ok ⟨found.length, count, none⟩)

/-- `CoreDB.saveCollection`, reduced to the snapshot it serializes: the full
document sequence `Array.from(collection.documents.values())` (the JSON text
encoding is injective on the value model, so the snapshot is kept as the
parsed document list). -/
def saveCollection (documents : DocMap) : List Doc :=
  documents.map (fun p => p.2)

/-- One step of `CoreDB.loadCollection`'s rebuild loop: documents whose
`_id` is falsy (or absent) are skipped, others are keyed by their `_id`. -/
def loadStep (m : DocMap) (doc : Doc) : DocMap :=
  match jsGet doc "_id" with
  | some idv => if isTruthyV idv then docMapSet m (some idv) doc else m
  | none => m

/-- `CoreDB.loadCollection`: rebuild the in-memory map from the snapshot's
document sequence. -/
def loadCollection (snapshot : List Doc) : DocMap :=
  snapshot.foldl loadStep []

/-- `value || 0` coerced to a number, as used by the `$sum`/`$avg`
accumulators (`groupDoc[field] += value || 0`).  A truthy non-numeric value
would trigger host string concatenation, which is not modelled (no claim
feeds non-numeric values to these accumulators). -/
def jsNumOrZero : Option Value → Rat
  | some (Value.num q) => q
  | _ => 0

/-- `Database.applyAccumulator(groupDoc, field, operator, value)`.  The
empty-state initialization runs whenever the current accumulated value is
falsy; `$avg` keeps a `{sum, count}` object that the accumulation step
replaces by the quotient `sum / count` — so on the next document the value is
a plain number and the `typeof === 'object'` guard skips any further
accumulation.  `$min`/`$max` initialize their empty state with the host
`Infinity` sentinel, which the rational number model cannot represent; no
claim exercises them and they are left unmodelled (the `value`-seeded branch
and comparison are modelled, the sentinel branch falls back to the seed). -/
def applyAccumulator (groupDoc : Doc) (field : String) (operator : String)
    (value : Option Value) : Doc :=
  let initialized :=
    if isFalsyOpt (jsGet groupDoc field) then
      setField groupDoc field
        (match operator with
          | "$sum" => Value.num 0
          | "$avg" => Value.obj [("sum", Value.num 0), ("count", Value.num 0)]
          | "$min" => value.getD (Value.num 0)
          | "$max" => value.getD (Value.num 0)
          | "$push" => Value.arr []
          | _ => Value.num 0)
    else groupDoc
  match operator with
  | "$sum" =>
      match jsGet initialized field with
      | some (Value.num cur) => setField initialized field (Value.num (ratAdd cur (jsNumOrZero value)))
      | _ => initialized
  | "$avg" =>
      match jsGet initialized field with
      | some (Value.obj fs) =>
          (match jsGet fs "sum", jsGet fs "count" with
            | some (Value.num s), some (Value.num c) =>
                let s' := ratAdd s (jsNumOrZero value)
                let c' := ratAdd c 1
                setField initialized field (Value.num (ratDiv s' c'))
            | _, _ => initialized)
      | _ => initialized
  | "$min" =>
      match value, jsGet initialized field with
      | some v, some cur => if jsLtV v cur then setField initialized field v else initialized
      | _, _ => initialized
  | "$max" =>
      match value, jsGet initialized field with
      | some v, some cur => if jsLtV cur v then setField initialized field v else initialized
      | _, _ => initialized
  | "$push" =>
      match jsGet initialized field with
      | some (Value.arr xs) => setField initialized field (Value.arr (xs ++ [value.getD Value.null]))
      | _ => initialized
  | _ => initialized

/-- `Database.getGroupKey(doc, idSpec)`: a string spec groups by that
top-level field's value (possibly `undefined`), `null` makes one group, and a
mapping spec builds a JSON-serialized composite key (`JSON.stringify` omits
aliases whose field path resolves to `undefined`, and a non-string field path
makes `getNestedValue` yield `undefined`).  A group spec without `_id`
raises in the host (`Object.entries(undefined)`) and is unexercised. -/
def getGroupKey (doc : Doc) (idSpec : Option Value) : Option Value :=
  match idSpec with
  | some (Value.str s) => jsGet doc s
  | some Value.null => some Value.null
  | some v =>
      let keyFields :=
        (objFields v).foldr
          (fun p acc =>
            match p.2 with
            | Value.str fieldPath =>
                match getNestedValue doc fieldPath with
                | some val => (p.1, val) :: acc
                | none => acc
            | _ => acc)
          []
      some (Value.str (jsonStringify (Value.obj keyFields)))
  | none => none

/-- Per-document accumulation over the non-`_id` output fields of a `$group`
spec, in spec order.  Each accumulator object's first entry is taken
(`Object.entries(accumulator)[0]`); when its argument is not a string field
path the field is skipped with a console warning — in particular `{$sum: 1}`
never accumulates.  An accumulator with no entries raises in the host and is
unexercised. -/
def accumulateFields (group : Doc) (doc : Doc) (groupDoc : Doc) : Doc :=
  group.foldl
    (fun gd p =>
      if p.1 == "_id" then gd
      else
        match objFields p.2 with
        | (operator, fieldPath) :: _ =>
            match fieldPath with
            | Value.str s => applyAccumulator gd p.1 operator (getNestedValue doc s)
            | _ => gd
        | [] => gd)
    groupDoc

/-- `Database.applyGroupStage`: group the documents by key (insertion-ordered
`Map` keyed with SameValueZero), seeding each group with `{_id: groupKey}`
(an `undefined` key leaves no modelled `_id` binding), then fold the
accumulators per input document in iteration order. -/
def applyGroupStage (documents : List Doc) (group : Doc) : List Doc :=
  let idSpec := jsGet group "_id"
  let groups :=
    documents.foldl
      (fun gs doc =>
        let key := getGroupKey doc idSpec
        let gs :=
          if (gs.find? (fun p => optValueEq p.1 key)).isSome then gs
          else
            gs ++ [(key,
              match key with
              | some v => [("_id", v)]
              | none => [])]
        gs.map (fun p => if optValueEq p.1 key then (p.1, accumulateFields group doc p.2) else p))
      ([] : List (Option Value × Doc))
  groups.map (fun p => p.2)

/-- The aggregation stages the claims exercise (`Database.aggregate`
dispatches on the stage's single key; `$sort` and `$project` are not used by
any claim and are not modelled). -/
inductive Stage where
  | matchStage (q : Doc)
  | groupStage (g : Doc)
  | limitStage (n : Nat)
  | skipStage (n : Nat)

/-- `Database.aggregate(collection, pipeline)`: start from the full
unfiltered document sequence and fold the stages in order. -/
def aggregate (documents : DocMap) (pipeline : List Stage) : List Doc :=
  pipeline.foldl
    (fun results stage =>
      match stage with
      | Stage.matchStage q => applyQuery results q
      | Stage.groupStage g => applyGroupStage results g
      | Stage.limitStage n => results.take n
      | Stage.skipStage n => results.drop n)
    (docMapValues documents)

/-- Phase of one `processWriteQueue` invocation: between loop iterations
(checking the queue), or awaiting one queued save operation. -/
inductive ProcPhase where
  | looping
  | running (op : Nat)

/-- State of `CoreDB`'s write coordination: the pending `writeQueue`, the
`isWriting` flag, the active `processWriteQueue` invocations with their
phase, and two history variables recording enqueue order and start order
(queued operations are identified by numbers). -/
structure WriteQueueState where
  queue : List Nat
  isWriting : Bool
  procs : List ProcPhase
  enqueued : List Nat
  started : List Nat

/-- The initial `CoreDB` write state: empty queue, `isWriting = false`. -/
def writeQueueInit : WriteQueueState :=
  ⟨[], false, [], [], []⟩

/-- Small-step semantics of `queueWrite`/`processWriteQueue` under the
host's cooperative (single-threaded, suspend-only-at-`await`) scheduling:

* `enqueueIdle`/`enqueueBusy` — `queueWrite` pushes the operation and calls
  `processWriteQueue`; the guard `if (isWriting || queue.length === 0)
  return` and the `isWriting = true` assignment run atomically (no `await`
  between them), so a new invocation enters the loop only when `isWriting`
  was `false`.
* `enterProcess` — a direct `processWriteQueue` call (e.g. `disconnect`)
  passing the same guard.
* `startOp` — an invocation between iterations shifts the queue's head and
  begins awaiting it.
* `finishOp` — the awaited operation completes; back to the loop check.
* `exitProcess` — the loop check finds the queue empty: `isWriting = false`
  and the invocation returns. -/
inductive WriteQueueStep : WriteQueueState → WriteQueueState → Prop where
  | enqueueIdle (s : WriteQueueState) (op : Nat) (h : s.isWriting = false) :
      WriteQueueStep s
        ⟨s.queue ++ [op], true, s.procs ++ [ProcPhase.looping], s.enqueued ++ [op], s.started⟩
  | enqueueBusy (s : WriteQueueState) (op : Nat) (h : s.isWriting = true) :
      WriteQueueStep s
        ⟨s.queue ++ [op], s.isWriting, s.procs, s.enqueued ++ [op], s.started⟩
  | enterProcess (s : WriteQueueState) (h : s.isWriting = false) (hq : s.queue ≠ []) :
      WriteQueueStep s
        ⟨s.queue, true, s.procs ++ [ProcPhase.looping], s.enqueued, s.started⟩
  | startOp (s : WriteQueueState) (op : Nat) (rest : List Nat) (p1 p2 : List ProcPhase)
      (hq : s.queue = op :: rest) (hp : s.procs = p1 ++ ProcPhase.looping :: p2) :
      WriteQueueStep s
        ⟨rest, s.isWriting, p1 ++ ProcPhase.running op :: p2, s.enqueued, s.started ++ [op]⟩
  | finishOp (s : WriteQueueState) (op : Nat) (p1 p2 : List ProcPhase)
      (hp : s.procs = p1 ++ ProcPhase.running op :: p2) :
      WriteQueueStep s
        ⟨s.queue, s.isWriting, p1 ++ ProcPhase.looping :: p2, s.enqueued, s.started⟩
  | exitProcess (s : WriteQueueState) (p1 p2 : List ProcPhase)
      (hp : s.procs = p1 ++ ProcPhase.looping :: p2) (hq : s.queue = []) :
      WriteQueueStep s
        ⟨s.queue, false, p1 ++ p2, s.enqueued, s.started⟩

/-- States reachable from the initial write-queue state. -/
def WriteQueueReachable (s : WriteQueueState) : Prop :=
  Relation.ReflTransGen WriteQueueStep writeQueueInit s

/-- Is a `processWriteQueue` invocation currently awaiting a save
operation? -/
def isRunningProc : ProcPhase → Bool
  | ProcPhase.running _ => true
  | ProcPhase.looping => false

/-- Does the update spec avoid touching `_id` through its `$`-operator
arguments?  (Bare keys are unrestricted: a bare `_id` is skipped by
`applyUpdateOperations` itself.) -/
def updateSpecProtectsId (updateSpec : Doc) : Bool :=
  updateSpec.all (fun p =>
    !startsWithDollar p.1 || (objFields p.2).all (fun q => !(q.1 == "_id")))

/-- Are all keys of the map pairwise distinct and is every entry keyed by its
document's (truthy) `_id`?  This is the invariant `Collection.insert`
establishes for the in-memory document map whose snapshot gets saved. -/
def WellKeyed (docs : DocMap) : Prop :=
  (∀ p ∈ docs, ∃ v, p.1 = some v ∧ jsGet p.2 "_id" = some v ∧ isTruthyV v = true)
  ∧ docs.Pairwise (fun p q => optValueEq p.1 q.1 = false)

/-- No entry of the map carries this key. -/
def keyAbsent (m : DocMap) (k : Option Value) : Prop :=
  ∀ q ∈ m, optValueEq q.1 k = false

/-- The three documents (ages 25, 30, 18) of the aggregation example. -/
def aggDocsMap : DocMap :=
  [(some (Value.str "1"), [("_id", Value.str "1"), ("age", Value.num 25)]),
   (some (Value.str "2"), [("_id", Value.str "2"), ("age", Value.num 30)]),
   (some (Value.str "3"), [("_id", Value.str "3"), ("age", Value.num 18)])]

/-- The aggregation pipeline
`[{$match:{age:{$gte:20}}}, {$group:{_id:null, avg:{$avg:"age"}, count:{$sum:1}}}]`. -/
def aggPipelineC3 : List Stage :=
  [Stage.matchStage [("age", Value.obj [("$gte", Value.num 20)])],
   Stage.groupStage [("_id", Value.null),
                     ("avg", Value.obj [("$avg", Value.str "age")]),
                     ("count", Value.obj [("$sum", Value.num 1)])]]

/-- A stored document with unique-indexed fields `a` and `b`. -/
def d1doc : Doc := [("_id", Value.str "d1"), ("a", Value.str "x"), ("b", Value.str "y")]

/-- Unique index on `[a]` already holding `d1doc`. -/
def idxA0 : Index := ⟨"users_a", "users", ["a"], true, false, [("\"x\"", [some (Value.str "d1")])]⟩

/-- Unique index on `[b]` already holding `d1doc`. -/
def idxB0 : Index := ⟨"users_b", "users", ["b"], true, false, [("\"y\"", [some (Value.str "d1")])]⟩

/-- Collection holding `d1doc`, with both unique indexes bound. -/
def c2start : Collection := ⟨[(some (Value.str "d1"), d1doc)], [idxA0, idxB0]⟩

/-- A new document with a fresh `a` but a duplicate `b`. -/
def d2raw : Doc := [("_id", Value.str "d2"), ("a", Value.str "z"), ("b", Value.str "y")]

/-- `d2raw` as stored by `insert` (timestamps appended). -/
def d2stored : Doc := d2raw ++ [("_createdAt", Value.str "t0"), ("_updatedAt", Value.str "t0")]

/-- The `a`-index after the failed insert: it has kept the entry for the
rejected document. -/
def idxA1 : Index := ⟨"users_a", "users", ["a"], true, false,
  [("\"x\"", [some (Value.str "d1")]), ("\"z\"", [some (Value.str "d2")])]⟩

/-- A stored document for the duplicate-`_id` scenario. -/
def cAdoc : Doc := [("_id", Value.str "a"), ("email", Value.str "x")]

/-- Unique index on `[email]` already holding `cAdoc`. -/
def c10idx : Index := ⟨"users_email", "users", ["email"], true, false,
  [("\"x\"", [some (Value.str "a")])]⟩

/-- Collection holding `cAdoc` with the unique email index bound. -/
def c10coll : Collection := ⟨[(some (Value.str "a"), cAdoc)], [c10idx]⟩

/-- Concrete inputs for the witness of the amended duplicate-`_id` claim
(no indexes bound). -/
def c10wDocs : DocMap := [(some (Value.str "a"), [("_id", Value.str "a"), ("n", Value.num 1)])]

/-- Concrete collection for the `modifiedCount = matchedCount` witness. -/
def c9wColl : Collection :=
  ⟨[(some (Value.str "w1"), [("_id", Value.str "w1"), ("name", Value.str "Jane")])], []⟩

/-- Concrete update spec for the `modifiedCount = matchedCount` witness. -/
def c9wSpec : Doc := [("$set", Value.obj [("age", Value.num 30)])]

/-- Concrete sparse unique index for the sparse-exclusion witness. -/
def c6wIdx : Index := ⟨"users_email_sparse", "users", ["email"], true, true, []⟩

/-- Concrete map with two well-keyed documents for the round-trip witness. -/
def c7wDocs : DocMap :=
  [(some (Value.str "r1"), [("_id", Value.str "r1"), ("n", Value.num 1)]),
   (some (Value.str "r2"), [("_id", Value.str "r2"), ("n", Value.num 2)])]

/-- First document of the unique-index reuse witness. -/
def d1W : Doc := [("_id", Value.str "u1"), ("email", Value.str "e")]

/-- Second document (same email) of the unique-index reuse witness. -/
def d2W : Doc := [("_id", Value.str "u2"), ("email", Value.str "e")]

lemma jsGet_setField_ne (d : Doc) (k k' : String) (v : Value) (h : k' ≠ k) :
    jsGet (setField d k v) k' = jsGet d k' := by
  induction d with
  | nil =>
      simp [setField, jsGet, List.find?, beq_eq_false_iff_ne.mpr (Ne.symm h)]
  | cons p rest ih =>
      by_cases hk : (p.1 == k) = true
      · have hpk : p.1 = k := eq_of_beq hk
        have hp' : (p.1 == k') = false := by
          rw [hpk]; exact beq_eq_false_iff_ne.mpr (fun he => h he.symm)
        simp [setField, hk, jsGet, List.find?, hp', beq_eq_false_iff_ne.mpr (fun he : k = k' => h he.symm)]
      · have hk' : (p.1 == k) = false := by simpa using hk
        by_cases hq : (p.1 == k') = true
        · simp [setField, hk', jsGet, List.find?, hq]
        · have hq' : (p.1 == k') = false := by simpa using hq
          simpa [setField, hk', jsGet, List.find?, hq'] using ih

lemma jsGet_removeField_ne (d : Doc) (k k' : String) (h : k' ≠ k) :
    jsGet (removeField d k) k' = jsGet d k' := by
  induction d with
  | nil => rfl
  | cons p rest ih =>
      by_cases hk : (p.1 == k) = true
      · have hpk : p.1 = k := eq_of_beq hk
        have hp' : (p.1 == k') = false := by
          rw [hpk]; exact beq_eq_false_iff_ne.mpr (fun he => h he.symm)
        simpa [removeField, List.filter, hk, jsGet, List.find?, hp'] using ih
      · have hk' : (p.1 == k) = false := by simpa using hk
        by_cases hq : (p.1 == k') = true
        · simp [removeField, List.filter, hk', jsGet, List.find?, hq]
        · have hq' : (p.1 == k') = false := by simpa using hq
          simpa [removeField, List.filter, hk', jsGet, List.find?, hq'] using ih

lemma foldl_preserves_jsGet_id {α : Type} (f : Doc → α → Doc) (l : List α)
    (hf : ∀ d a, a ∈ l → jsGet (f d a) "_id" = jsGet d "_id") :
    ∀ d, jsGet (l.foldl f d) "_id" = jsGet d "_id" := by
  induction l with
  | nil => intro d; rfl
  | cons a rest ih =>
      intro d
      rw [List.foldl_cons,
        ih (fun d' a' ha' => hf d' a' (List.mem_cons_of_mem _ ha')) (f d a),
        hf d a (List.mem_cons_self _ _)]

lemma applyUpdateEntry_preserves_id (d : Doc) (k : String) (v : Value)
    (h : startsWithDollar k = true → ∀ q ∈ objFields v, (q.1 == "_id") = false) :
    jsGet (applyUpdateEntry d k v) "_id" = jsGet d "_id" := by
  unfold applyUpdateEntry
  by_cases hd : startsWithDollar k = true
  · have hq := h hd
    have hne : ∀ q ∈ objFields v, "_id" ≠ q.1 := by
      intro q hmem he
      have hthis := hq q hmem
      rw [he.symm] at hthis
      simp at hthis
    have hset : ∀ (F : Doc → String × Value → Value),
        jsGet ((objFields v).foldl (fun d' p => setField d' p.1 (F d' p)) d) "_id"
          = jsGet d "_id" := by
      intro F
      exact foldl_preserves_jsGet_id _ _
        (fun d' a ha => jsGet_setField_ne d' a.1 "_id" (F d' a) (hne a ha)) d
    simp only [hd, if_true]
    split
    · exact hset (fun _ p => p.2)
    · split
      · exact foldl_preserves_jsGet_id _ _
          (fun d' a ha => jsGet_removeField_ne d' a.1 "_id" (hne a ha)) d
      · split
        · exact hset (fun d' p => jsIncResult (jsGet d' p.1) p.2)
        · split
          · exact hset (fun d' p => jsPushResult (jsGet d' p.1) p.2)
          · rfl
  · have hd' : startsWithDollar k = false := by simpa using hd
    simp only [hd', Bool.false_eq_true, if_false]
    split
    · rfl
    · rename_i hne
      have : k ≠ "_id" := by
        intro he; exact hne (by simp [he])
      exact jsGet_setField_ne d k "_id" v (fun he => this he.symm)

/-- Claim C1 (code bug): against an empty collection,
`update({name:"Jane"}, {$set:{age:30}}, {upsert:true})` does not upsert.
The upsert branch of `Collection.update` sits inside the loop over matched
documents and is guarded by `documents.length === 0`, so with no matches the
loop never runs: the call returns `{matchedCount: 0, modifiedCount: 0}` with
no `upsertedCount`, the collection stays empty, and a subsequent
`find({name:"Jane"})` returns nothing — contradicting the claimed
`{matchedCount:0, modifiedCount:1, upsertedCount:1}` and the spec's upsert
example (and the repository's own `should handle upsert` test). -/
theorem upsert_never_inserts :
    Collection.update ⟨[], []⟩ [("name", Value.str "Jane")]
        [("$set", Value.obj [("age", Value.num 30)])] ⟨true⟩ "gen" "t0"
        = (⟨[], []⟩, Except.ok ⟨0, 0, none⟩)
      ∧ Collection.find ⟨[], []⟩ [("name", Value.str "Jane")] = [] :=
  ⟨rfl, rfl⟩

/-- Claim C2 (code bug): an insert rejected by a unique index is not rolled
back.  Starting from a collection holding `d1doc` with unique indexes on
`[a]` and `[b]`, inserting `d2raw` (fresh `a`, duplicate `b`) raises
`DuplicateKey` from the `b`-index — yet the rejected document is present in
the document map (it was stored before index maintenance), and the `a`-index
has kept the already-applied entry for it, which was not there before. -/
theorem insert_duplicate_not_atomic :
    (Collection.insert c2start d2raw "gen" "t0").2
        = Except.error "Duplicate key error for index: users_b"
      ∧ docMapGet (Collection.insert c2start d2raw "gen" "t0").1.documents
          (some (Value.str "d2")) = some d2stored
      ∧ (Collection.insert c2start d2raw "gen" "t0").1.indexes = [idxA1, idxB0]
      ∧ indexDataFind idxA1.indexData "\"z\"" = some [some (Value.str "d2")]
      ∧ indexDataFind idxA0.indexData "\"z\"" = none :=
  ⟨rfl, rfl, rfl, rfl, rfl⟩

/-- Claim C3 (code bug): the pipeline
`[{$match:{age:{$gte:20}}}, {$group:{_id:null, avg:{$avg:"age"}, count:{$sum:1}}}]`
over documents with ages `[25, 30, 18]` does not return `count = 2` and
`avg = 27.5`.  The engine returns one group with `avg = 25` and no `count`
field at all: `{$sum: 1}`'s argument is not a string field path, so
`applyGroupStage` skips that accumulator entirely, and `$avg` replaces its
running `{sum, count}` state with the quotient after the first document, so
the `typeof === 'object'` guard stops all further accumulation. -/
theorem aggregate_sum_avg_miscomputed :
    aggregate aggDocsMap aggPipelineC3 = [[("_id", Value.null), ("avg", Value.num 25)]] :=
  rfl

/-- Claim C4 counterexample: an update whose `$set` argument contains `_id`
does change the stored `_id` (only a bare top-level `_id` key is skipped;
`$set` goes through `Object.assign`, which overwrites `_id`). -/
theorem set_operator_changes_id :
    jsGet (applyUpdateOperations [("_id", Value.str "a")]
        [("$set", Value.obj [("_id", Value.str "b")])]) "_id"
      ≠ jsGet [("_id", Value.str "a")] "_id" := by
  intro h
  have h' : Value.str "b" = Value.str "a" := Option.some.inj h
  exact absurd (Value.str.inj h') (by decide)

/-- Claim C4 (amended): applying the update operators never changes `_id`
through a bare key (a bare `_id` entry is skipped, and any other bare key
writes a different field); however `$set` (and the other `$`-operators) can
touch `_id`, so immutability holds exactly for update specs whose
`$`-operator arguments do not mention `_id`. -/
theorem applyUpdateOperations_preserves_id (doc updateSpec : Doc)
    (h : updateSpecProtectsId updateSpec = true) :
    jsGet (applyUpdateOperations doc updateSpec) "_id" = jsGet doc "_id" := by
  unfold applyUpdateOperations
  refine foldl_preserves_jsGet_id _ _ (fun d p hp => ?_) doc
  refine applyUpdateEntry_preserves_id d p.1 p.2 (fun hs q hq => ?_)
  have hall := (List.all_eq_true.mp h) p hp
  rw [hs] at hall
  simp only [Bool.not_true, Bool.false_or] at hall
  simpa using (List.all_eq_true.mp hall) q hq

/-- Witness for the amended Claim C4 at a concrete input (the spec protects
`_id`, and the bare `_id` entry present in it is skipped). -/
theorem applyUpdateOperations_preserves_id_witness :
    updateSpecProtectsId
        [("$set", Value.obj [("age", Value.num 2)]), ("name", Value.str "n"),
         ("_id", Value.str "zz")] = true
      ∧ jsGet (applyUpdateOperations [("_id", Value.str "a"), ("x", Value.num 1)]
          [("$set", Value.obj [("age", Value.num 2)]), ("name", Value.str "n"),
           ("_id", Value.str "zz")]) "_id"
        = jsGet [("_id", Value.str "a"), ("x", Value.num 1)] "_id" :=
  ⟨rfl, applyUpdateOperations_preserves_id
    [("_id", Value.str "a"), ("x", Value.num 1)]
    [("$set", Value.obj [("age", Value.num 2)]), ("name", Value.str "n"),
     ("_id", Value.str "zz")] rfl⟩

lemma all_keys_ne_of_find_none (m : IndexData) (k : String)
    (h : indexDataFind m k = none) : ∀ p ∈ m, (p.1 == k) = false := by
  intro p hp
  have hfind : m.find? (fun q => q.1 == k) = none := by
    cases hfd : m.find? (fun q => q.1 == k) with
    | none => rfl
    | some q => rw [indexDataFind, hfd] at h; simp at h
  have := List.find?_eq_none.mp hfind p hp
  simpa using this

lemma indexDataFind_append (m : IndexData) (k : String) (s : IdSet)
    (h : indexDataFind m k = none) :
    indexDataFind (m ++ [(k, s)]) k = some s := by
  induction m with
  | nil => simp [indexDataFind, List.find?]
  | cons p rest ih =>
      rw [indexDataFind] at h ⊢
      rw [List.cons_append]
      cases hp : (p.1 == k) with
      | true =>
          rw [List.find?_cons_of_pos _ (by simpa using hp)] at h
          simp at h
      | false =>
          rw [List.find?_cons_of_neg _ (by simp [hp])] at h ⊢
          exact ih h

lemma indexDataAdd_absent (m : IndexData) (k : String) (id : Option Value)
    (h : indexDataFind m k = none) :
    indexDataAdd m k id = m ++ [(k, [id])] := by
  have hfind : m.find? (fun q => q.1 == k) = none := by
    cases hfd : m.find? (fun q => q.1 == k) with
    | none => rfl
    | some q => rw [indexDataFind, hfd] at h; simp at h
  simp [indexDataAdd, hfind, idSetAdd]

lemma filterMap_keep_of_all {α : Type} (f : α → Option α) (l : List α)
    (h : ∀ x ∈ l, f x = some x) : l.filterMap f = l := by
  induction l with
  | nil => rfl
  | cons a rest ih =>
      rw [List.filterMap_cons, h a (List.mem_cons_self _ _),
        ih (fun x hx => h x (List.mem_cons_of_mem _ hx))]

lemma indexDataRemove_append_self (m : IndexData) (k : String) (id : Option Value)
    (h : indexDataFind m k = none) (hr : optValueEq id id = true) :
    indexDataRemove (m ++ [(k, [id])]) k id = m := by
  have hall := all_keys_ne_of_find_none m k h
  rw [indexDataRemove, List.filterMap_append]
  have h1 : m.filterMap (fun p =>
      if p.1 == k then
        let s' := idSetDelete p.2 id
        if s'.isEmpty then none else some (p.1, s')
      else some p) = m :=
    filterMap_keep_of_all _ m (fun p hp => by simp [hall p hp])
  have h2 : List.filterMap (fun p =>
      if p.1 == k then
        let s' := idSetDelete p.2 id
        if s'.isEmpty then none else some (p.1, s')
      else some p) [(k, [id])] = [] := by
    simp [List.filterMap_cons, idSetDelete, hr]
  rw [h1, h2, List.append_nil]

/-- Claim C5: for a unique index, inserting a second document whose composite
key equals that of an already-indexed document raises `DuplicateKey`; after
the first document is deleted (which removes the now-empty key entry), an
insert with the same composite key succeeds and is recorded.  The index is
taken at an arbitrary state `m` not yet holding the key, the first document's
id is a string (as ids produced by the engine are). -/
theorem unique_index_duplicate_and_reuse
    (nm coll : String) (flds : List String) (sp : Bool) (m : IndexData)
    (d1 d2 : Doc) (k s1 : String)
    (hk1 : Index.getIndexKey ⟨nm, coll, flds, true, sp, m⟩ d1 = some k)
    (hk2 : Index.getIndexKey ⟨nm, coll, flds, true, sp, m⟩ d2 = some k)
    (habs : indexDataFind m k = none)
    (hid1 : docId d1 = some (Value.str s1)) :
    Index.update ⟨nm, coll, flds, true, sp, m⟩ d1 IndexOp.insert none
        = Except.ok ⟨nm, coll, flds, true, sp, m ++ [(k, [docId d1])]⟩
      ∧ Index.update ⟨nm, coll, flds, true, sp, m ++ [(k, [docId d1])]⟩ d2 IndexOp.insert none
        = Except.error ("Duplicate key error for index: " ++ nm)
      ∧ Index.update ⟨nm, coll, flds, true, sp, m ++ [(k, [docId d1])]⟩ d1 IndexOp.delete none
        = Except.ok ⟨nm, coll, flds, true, sp, m⟩
      ∧ Index.update ⟨nm, coll, flds, true, sp, m⟩ d2 IndexOp.insert none
        = Except.ok ⟨nm, coll, flds, true, sp, m ++ [(k, [docId d2])]⟩
      ∧ indexDataFind (m ++ [(k, [docId d2])]) k = some [docId d2] := by
  have hfind1 : indexDataFind (m ++ [(k, [docId d1])]) k = some [docId d1] :=
    indexDataFind_append m k [docId d1] habs
  have hrefl : optValueEq (docId d1) (docId d1) = true := by
    rw [hid1]; simp [optValueEq, jsStrictEq]
  have hk2' : Index.getIndexKey ⟨nm, coll, flds, true, sp, m ++ [(k, [docId d1])]⟩ d2 = some k := hk2
  have hk1' : Index.getIndexKey ⟨nm, coll, flds, true, sp, m ++ [(k, [docId d1])]⟩ d1 = some k := hk1
  refine ⟨?_, ?_, ?_, ?_, indexDataFind_append m k [docId d2] habs⟩
  · simp only [Index.update, hk1, habs]
    simp [indexDataAdd_absent m k (docId d1) habs]
  · simp only [Index.update, hk2', hfind1]
    simp
  · simp only [Index.update, hk1', hfind1]
    simp [indexDataRemove_append_self m k (docId d1) habs hrefl]
  · simp only [Index.update, hk2, habs]
    simp [indexDataAdd_absent m k (docId d2) habs]

/-- Witness for Claim C5 on a concrete unique `[email]` index and two
documents sharing an email. -/
theorem unique_index_duplicate_and_reuse_witness :
    Index.update ⟨"uniq_email", "users", ["email"], true, false, []⟩ d1W IndexOp.insert none
        = Except.ok ⟨"uniq_email", "users", ["email"], true, false, [("\"e\"", [docId d1W])]⟩
      ∧ Index.update ⟨"uniq_email", "users", ["email"], true, false, [("\"e\"", [docId d1W])]⟩
          d2W IndexOp.insert none
        = Except.error ("Duplicate key error for index: " ++ "uniq_email")
      ∧ Index.update ⟨"uniq_email", "users", ["email"], true, false, [("\"e\"", [docId d1W])]⟩
          d1W IndexOp.delete none
        = Except.ok ⟨"uniq_email", "users", ["email"], true, false, []⟩
      ∧ Index.update ⟨"uniq_email", "users", ["email"], true, false, []⟩ d2W IndexOp.insert none
        = Except.ok ⟨"uniq_email", "users", ["email"], true, false, [("\"e\"", [docId d2W])]⟩
      ∧ indexDataFind [("\"e\"", [docId d2W])] "\"e\"" = some [docId d2W] :=
  unique_index_duplicate_and_reuse "uniq_email" "users" ["email"] false [] d1W d2W "\"e\"" "u1"
    rfl rfl rfl rfl

/-- Claim C6: for a sparse index, a document for which some indexed field
path resolves to `undefined` gets no key computed at all, and inserting two
such documents never raises `DuplicateKey` nor changes the index — even with
`unique = true` (here `uq` is arbitrary), so they cannot conflict. -/
theorem sparse_index_excludes_missing_docs
    (nm coll : String) (flds : List String) (uq : Bool) (m : IndexData)
    (d1 d2 : Doc) (f1 f2 : String)
    (hf1 : f1 ∈ flds) (hm1 : getNestedValue d1 f1 = none)
    (hf2 : f2 ∈ flds) (hm2 : getNestedValue d2 f2 = none) :
    Index.getIndexKey ⟨nm, coll, flds, uq, true, m⟩ d1 = none
      ∧ Index.update ⟨nm, coll, flds, uq, true, m⟩ d1 IndexOp.insert none
        = Except.ok ⟨nm, coll, flds, uq, true, m⟩
      ∧ Index.update ⟨nm, coll, flds, uq, true, m⟩ d2 IndexOp.insert none
        = Except.ok ⟨nm, coll, flds, uq, true, m⟩ := by
  have hkey : ∀ (d : Doc) (f : String), f ∈ flds → getNestedValue d f = none →
      Index.getIndexKey ⟨nm, coll, flds, uq, true, m⟩ d = none := by
    intro d f hf hmf
    have hany : (flds.map (fun field =>
        match getNestedValue d field with
        | some v => some (jsonStringify v)
        | none => none)).any (fun p => p.isNone) = true := by
      refine List.any_eq_true.mpr ⟨none, List.mem_map.mpr ⟨f, hf, by rw [hmf]⟩, rfl⟩
    simp [Index.getIndexKey, hany]
  have hk1 := hkey d1 f1 hf1 hm1
  have hk2 := hkey d2 f2 hf2 hm2
  refine ⟨hk1, ?_, ?_⟩
  · simp only [Index.update, hk1]
  · simp only [Index.update, hk2]

/-- Witness for Claim C6: a sparse unique `[email]` index and two documents
with no email at all. -/
theorem sparse_index_excludes_missing_docs_witness :
    Index.getIndexKey c6wIdx [("_id", Value.str "u1")] = none
      ∧ Index.update c6wIdx [("_id", Value.str "u1")] IndexOp.insert none = Except.ok c6wIdx
      ∧ Index.update c6wIdx [("_id", Value.str "u2")] IndexOp.insert none = Except.ok c6wIdx :=
  sparse_index_excludes_missing_docs "users_email_sparse" "users" ["email"] true []
    [("_id", Value.str "u1")] [("_id", Value.str "u2")] "email" "email"
    (List.mem_singleton.mpr rfl) rfl (List.mem_singleton.mpr rfl) rfl

lemma docMapSet_append (m : DocMap) (k : Option Value) (d : Doc) (h : keyAbsent m k) :
    docMapSet m k d = m ++ [(k, d)] := by
  induction m with
  | nil => rfl
  | cons p rest ih =>
      have h0 : optValueEq p.1 k = false := h p (List.mem_cons_self _ _)
      simp [docMapSet, h0, ih (fun q hq => h q (List.mem_cons_of_mem _ hq))]

lemma docMapSet_length (m : DocMap) (k : Option Value) (d : Doc)
    (h : (docMapGet m k).isSome = true) :
    (docMapSet m k d).length = m.length := by
  induction m with
  | nil => simp [docMapGet] at h
  | cons p rest ih =>
      cases hp : optValueEq p.1 k with
      | true => simp [docMapSet, hp]
      | false =>
          rw [docMapGet, List.find?_cons_of_neg _ (by simp [hp])] at h
          simp [docMapSet, hp, ih h]

lemma docMapGet_set_self (m : DocMap) (k : Option Value) (d : Doc)
    (h : (docMapGet m k).isSome = true) :
    docMapGet (docMapSet m k d) k = some d := by
  induction m with
  | nil => simp [docMapGet] at h
  | cons p rest ih =>
      cases hp : optValueEq p.1 k with
      | true =>
          simp only [docMapSet, hp, if_true]
          rw [docMapGet, List.find?_cons_of_pos _ (by simpa using hp)]
          rfl
      | false =>
          rw [docMapGet, List.find?_cons_of_neg _ (by simp [hp])] at h
          simp only [docMapSet, hp, Bool.false_eq_true, if_false]
          rw [docMapGet, List.find?_cons_of_neg _ (by simp [hp])]
          exact ih h

lemma loadCollection_aux (docs : DocMap)
    (h1 : ∀ p ∈ docs, ∃ v, p.1 = some v ∧ jsGet p.2 "_id" = some v ∧ isTruthyV v = true)
    (h2 : docs.Pairwise (fun p q => optValueEq p.1 q.1 = false)) :
    ∀ acc, (∀ p ∈ docs, keyAbsent acc p.1) →
      List.foldl loadStep acc (docs.map (fun p => p.2)) = acc ++ docs := by
  induction docs with
  | nil => intro acc _; simp
  | cons p rest ih =>
      intro acc hacc
      obtain ⟨v, hpv, hid, htr⟩ := h1 p (List.mem_cons_self _ _)
      obtain ⟨hp_rest, h2'⟩ := List.pairwise_cons.mp h2
      have hstep : loadStep acc p.2 = acc ++ [p] := by
        rw [loadStep, hid]
        simp only [htr, if_true]
        rw [← hpv, docMapSet_append acc p.1 p.2 (hacc p (List.mem_cons_self _ _))]
      have hnew : ∀ q ∈ rest, keyAbsent (acc ++ [p]) q.1 := by
        intro q hq r hr
        rcases List.mem_append.mp hr with hra | hrp
        · exact hacc q (List.mem_cons_of_mem _ hq) r hra
        · have : r = p := List.mem_singleton.mp hrp
          rw [this]
          exact hp_rest q hq
      rw [List.map_cons, List.foldl_cons, hstep,
        ih (fun q hq => h1 q (List.mem_cons_of_mem _ hq)) h2' (acc ++ [p]) hnew,
        List.append_assoc]
      rfl

/-- Claim C7: round-trip persistence.  For a collection document map whose
entries are keyed by their documents' truthy `_id` values with pairwise
distinct keys (the invariant the engine maintains), reloading the saved
snapshot reconstructs exactly the same map: the same documents,
field-for-field, in the same insertion order. -/
theorem load_save_roundtrip (docs : DocMap) (h : WellKeyed docs) :
    loadCollection (saveCollection docs) = docs := by
  obtain ⟨h1, h2⟩ := h
  have := loadCollection_aux docs h1 h2 [] (fun p _ q hq => absurd hq (List.not_mem_nil q))
  simpa [loadCollection, saveCollection] using this

/-- Witness for Claim C7 on a two-document collection. -/
theorem load_save_roundtrip_witness :
    WellKeyed c7wDocs ∧ loadCollection (saveCollection c7wDocs) = c7wDocs := by
  have hw : WellKeyed c7wDocs := by
    constructor
    · intro p hp
      rw [c7wDocs] at hp
      rcases List.mem_cons.mp hp with h | h
      · exact ⟨Value.str "r1", by rw [h], by rw [h]; rfl, rfl⟩
      · have h' : p = (some (Value.str "r2"),
            [("_id", Value.str "r2"), ("n", Value.num 2)]) := List.mem_singleton.mp h
        exact ⟨Value.str "r2", by rw [h'], by rw [h']; rfl, rfl⟩
    · rw [c7wDocs]
      refine List.pairwise_cons.mpr ⟨?_, List.pairwise_singleton _ _⟩
      intro q hq
      have h' : q = (some (Value.str "r2"),
          [("_id", Value.str "r2"), ("n", Value.num 2)]) := List.mem_singleton.mp hq
      rw [h']
      rfl
  exact ⟨hw, load_save_roundtrip c7wDocs hw⟩

/-- Claim C10 counterexample: with a unique index bound to the collection, an
insert that reuses an existing `_id` (and collides on the indexed field) does
raise a `DuplicateKey` error rather than silently replacing. -/
theorem insert_existing_id_can_raise :
    (Collection.insert c10coll [("_id", Value.str "a"), ("email", Value.str "x")] "g" "t").2
      = Except.error "Duplicate key error for index: users_email" := rfl

/-- Claim C10 (amended): inserting a document whose explicit `_id` already
identifies a stored document raises no error when no index is bound to the
collection (a bound unique index can reject it instead): the new document
silently replaces the old one in place — the map still holds exactly one
document under that id, and the collection's size does not grow. -/
theorem insert_existing_id_replaces (docs : DocMap) (d : Doc) (idv : Value) (gen now : String)
    (hid : jsGet d "_id" = some idv) (ht : isTruthyV idv = true)
    (hexists : (docMapGet docs (some idv)).isSome = true) :
    ∃ stored,
      Collection.insert ⟨docs, []⟩ d gen now
          = (⟨docMapSet docs (some idv) stored, []⟩, Except.ok stored)
        ∧ jsGet stored "_id" = some idv
        ∧ docMapGet (docMapSet docs (some idv) stored) (some idv) = some stored
        ∧ (docMapSet docs (some idv) stored).length = docs.length := by
  refine ⟨setField (setField d "_createdAt" (Value.str now)) "_updatedAt" (Value.str now),
    ?_, ?_, ?_, ?_⟩
  case refine_2 =>
    rw [jsGet_setField_ne _ _ _ _ (by decide), jsGet_setField_ne _ _ _ _ (by decide), hid]
  case refine_1 =>
    have hsid : jsGet (setField (setField d "_createdAt" (Value.str now)) "_updatedAt"
        (Value.str now)) "_id" = some idv := by
      rw [jsGet_setField_ne _ _ _ _ (by decide), jsGet_setField_ne _ _ _ _ (by decide), hid]
    rw [Collection.insert, hid]
    simp only [isFalsyOpt, ht, Bool.not_true, Bool.false_eq_true, if_false]
    rw [hsid]
    rfl
  case refine_3 =>
    exact docMapGet_set_self docs (some idv) _ hexists
  case refine_4 =>
    exact docMapSet_length docs (some idv) _ hexists

/-- Witness for the amended Claim C10: a one-document collection with no
indexes, re-inserting under the same `_id`. -/
theorem insert_existing_id_replaces_witness :
    jsGet [("_id", Value.str "a"), ("n", Value.num 2)] "_id" = some (Value.str "a")
      ∧ (docMapGet c10wDocs (some (Value.str "a"))).isSome = true
      ∧ ∃ stored,
          Collection.insert ⟨c10wDocs, []⟩ [("_id", Value.str "a"), ("n", Value.num 2)] "g" "t"
              = (⟨docMapSet c10wDocs (some (Value.str "a")) stored, []⟩, Except.ok stored)
            ∧ jsGet stored "_id" = some (Value.str "a")
            ∧ docMapGet (docMapSet c10wDocs (some (Value.str "a")) stored)
                (some (Value.str "a")) = some stored
            ∧ (docMapSet c10wDocs (some (Value.str "a")) stored).length = c10wDocs.length :=
  ⟨rfl, rfl, insert_existing_id_replaces c10wDocs
    [("_id", Value.str "a"), ("n", Value.num 2)] (Value.str "a") "g" "t" rfl rfl rfl⟩

lemma updateLoop_no_upsert (pending : List Doc) :
    ∀ docs idxs total query updateSpec newId now count,
      (∃ docs' idxs' cnt e,
          updateLoop docs idxs pending total query updateSpec false newId now count
            = ((docs', idxs', cnt), some (Except.error e)))
      ∨ (∃ docs' idxs',
          updateLoop docs idxs pending total query updateSpec false newId now count
            = ((docs', idxs', count + pending.length), none)) := by
  induction pending with
  | nil =>
      intro docs idxs total query updateSpec newId now count
      right
      exact ⟨docs, idxs, by simp [updateLoop]⟩
  | cons doc rest ih =>
      intro docs idxs total query updateSpec newId now count
      rw [updateLoop]
      simp only [Bool.false_and, Bool.false_eq_true, if_false]
      rcases hui : updateIndexesList idxs
          (setField (applyUpdateOperations doc updateSpec) "_updatedAt" (Value.str now))
          IndexOp.update (some doc) with ⟨idxs', err⟩
      cases err with
      | some e =>
          left
          exact ⟨_, idxs', count, e, rfl⟩
      | none =>
          rcases ih (docMapSet docs
              (jsGet (setField (applyUpdateOperations doc updateSpec) "_updatedAt"
                (Value.str now)) "_id")
              (setField (applyUpdateOperations doc updateSpec) "_updatedAt" (Value.str now)))
              idxs' total query updateSpec newId now (count + 1) with
            ⟨d', i', c', e', heq⟩ | ⟨d', i', heq⟩
          · left
            exact ⟨d', i', c', e', heq⟩
          · right
            refine ⟨d', i', ?_⟩
            have harith : count + 1 + rest.length = count + (doc :: rest).length := by
              rw [List.length_cons]
              omega
            rw [harith] at heq
            exact heq

/-- Claim C9: whenever `Collection.update` without upsert returns a result
(here additionally under the claim's premise that at least one document
matched), that result satisfies `modifiedCount = matchedCount`: the loop
increments `updatedCount` unconditionally for every matched document, even
when the operators leave the document unchanged. -/
theorem update_modified_eq_matched (c : Collection) (query updateSpec : Doc)
    (newId now : String) (r : UpdateResult)
    (hm : c.find query ≠ [])
    (h : (Collection.update c query updateSpec ⟨false⟩ newId now).2 = Except.ok r) :
    r.modifiedCount = r.matchedCount := by
  rw [Collection.update] at h
  rcases updateLoop_no_upsert (c.find query) c.documents c.indexes (c.find query).length
      query updateSpec newId now 0 with ⟨d', i', c', e', heq⟩ | ⟨d', i', heq⟩
  · rw [heq] at h
    simp at h
  · rw [heq] at h
    simp only [] at h
    have h' : (⟨(c.find query).length, 0 + (c.find query).length, none⟩ : UpdateResult) = r :=
      Except.ok.inj h
    rw [← h']
    simp

/-- Witness for Claim C9: one matching document, `$set` update, result
`{matchedCount: 1, modifiedCount: 1}`. -/
theorem update_modified_eq_matched_witness :
    (Collection.update c9wColl [("name", Value.str "Jane")] c9wSpec ⟨false⟩ "g" "t").2
        = Except.ok ⟨1, 1, none⟩
      ∧ (⟨1, 1, none⟩ : UpdateResult).modifiedCount
        = (⟨1, 1, none⟩ : UpdateResult).matchedCount :=
  ⟨rfl, update_modified_eq_matched c9wColl [("name", Value.str "Jane")] c9wSpec "g" "t"
    ⟨1, 1, none⟩
    (fun hcon => List.cons_ne_nil _ _
      ((rfl : Collection.find c9wColl [("name", Value.str "Jane")]
          = [[("_id", Value.str "w1"), ("name", Value.str "Jane")]]) ▸ hcon))
    rfl⟩

lemma writeQueueInv_init :
    writeQueueInit.procs.length ≤ 1
      ∧ (writeQueueInit.isWriting = false → writeQueueInit.procs = [])
      ∧ writeQueueInit.started ++ writeQueueInit.queue = writeQueueInit.enqueued :=
  ⟨by simp [writeQueueInit], fun _ => rfl, rfl⟩

lemma writeQueueInv_step {s t : WriteQueueState}
    (hs : s.procs.length ≤ 1 ∧ (s.isWriting = false → s.procs = [])
      ∧ s.started ++ s.queue = s.enqueued)
    (h : WriteQueueStep s t) :
    t.procs.length ≤ 1 ∧ (t.isWriting = false → t.procs = [])
      ∧ t.started ++ t.queue = t.enqueued := by
  obtain ⟨hlen, hidle, hfifo⟩ := hs
  cases h with
  | enqueueIdle op hW =>
      refine ⟨?_, ?_, ?_⟩
      · have hnil : s.procs = [] := hidle hW
        simp [hnil]
      · intro hc; exact absurd hc (by simp)
      · show s.started ++ (s.queue ++ [op]) = s.enqueued ++ [op]
        rw [← List.append_assoc, hfifo]
  | enqueueBusy op hW =>
      refine ⟨hlen, ?_, ?_⟩
      · intro hc
        rw [hW] at hc
        exact absurd hc (by simp)
      · show s.started ++ (s.queue ++ [op]) = s.enqueued ++ [op]
        rw [← List.append_assoc, hfifo]
  | enterProcess hW hq =>
      refine ⟨?_, ?_, hfifo⟩
      · have hnil : s.procs = [] := hidle hW
        simp [hnil]
      · intro hc; exact absurd hc (by simp)
  | startOp op rest p1 p2 hq hp =>
      refine ⟨?_, ?_, ?_⟩
      · rw [hp] at hlen
        simpa using hlen
      · intro hc
        rw [hidle hc] at hp
        exact absurd hp.symm (by simp)
      · show (s.started ++ [op]) ++ rest = s.enqueued
        rw [List.append_assoc]
        rw [hq] at hfifo
        exact hfifo
  | finishOp op p1 p2 hp =>
      refine ⟨?_, ?_, hfifo⟩
      · rw [hp] at hlen
        simpa using hlen
      · intro hc
        rw [hidle hc] at hp
        exact absurd hp.symm (by simp)
  | exitProcess p1 p2 hp hq =>
      refine ⟨?_, ?_, hfifo⟩
      · rw [hp] at hlen
        simp only [List.length_append, List.length_cons] at hlen
        simp only [List.length_append]
        omega
      · intro _
        rw [hp] at hlen
        simp only [List.length_append, List.length_cons] at hlen
        have hp1 : p1.length = 0 := by omega
        have hp2 : p2.length = 0 := by omega
        show p1 ++ p2 = []
        rw [List.length_eq_zero.mp hp1, List.length_eq_zero.mp hp2]
        rfl

lemma writeQueueInv_reachable {s : WriteQueueState} (h : WriteQueueReachable s) :
    s.procs.length ≤ 1 ∧ (s.isWriting = false → s.procs = [])
      ∧ s.started ++ s.queue = s.enqueued := by
  induction h with
  | refl => exact writeQueueInv_init
  | tail _ hbc ih => exact writeQueueInv_step ih hbc

/-- Claim C8: in every reachable state of the write-queue model, at most one
queued save operation is executing (so two snapshot writes of the same Store
never run interleaved), and the operations started so far, in order, are
exactly the enqueued ones minus the still-queued tail — i.e. execution starts
follow the FIFO enqueue order. -/
theorem writeQueue_single_writer_fifo (s : WriteQueueState) (h : WriteQueueReachable s) :
    s.procs.countP isRunningProc ≤ 1 ∧ s.started ++ s.queue = s.enqueued := by
  obtain ⟨hlen, _, hfifo⟩ := writeQueueInv_reachable h
  exact ⟨le_trans (List.countP_le_length _) hlen, hfifo⟩

/-- Witness for Claim C8: the state reached by enqueueing operation `0` on an
idle store and starting it. -/
theorem writeQueue_single_writer_fifo_witness :
    ([ProcPhase.running 0].countP isRunningProc ≤ 1)
      ∧ ([0] : List Nat) ++ ([] : List Nat) = [0] := by
  have h1 : WriteQueueStep writeQueueInit ⟨[0], true, [ProcPhase.looping], [0], []⟩ :=
    WriteQueueStep.enqueueIdle writeQueueInit 0 rfl
  have h2 : WriteQueueStep ⟨[0], true, [ProcPhase.looping], [0], []⟩
      ⟨[], true, [ProcPhase.running 0], [0], [0]⟩ :=
    WriteQueueStep.startOp ⟨[0], true, [ProcPhase.looping], [0], []⟩ 0 [] [] [] rfl rfl
  have hr : WriteQueueReachable ⟨[], true, [ProcPhase.running 0], [0], [0]⟩ :=
    Relation.ReflTransGen.tail (Relation.ReflTransGen.tail Relation.ReflTransGen.refl h1) h2
  exact writeQueue_single_writer_fifo ⟨[], true, [ProcPhase.running 0], [0], [0]⟩ hr
